import Mathlib

/-!  A shallow embedding of the cross-zone version reconciliation engine of
ceph-rgw-multisite-ui: the helpers of `backend/s3_utils.py` and the
`/consistency/check` endpoint of `backend/app.py`.

Modelling conventions:
* Store datetimes carry sub-second precision; they are modelled as whole
  seconds (`Int`) plus microseconds (`Nat`).  `LastModified` is always present
  on store records (the spec's data model lists `last_modified` as a mandatory
  field of every version record), so record timestamps are not optional; in
  `find_best_version` the Python truthiness test `entry.get("LastModified")`
  therefore always succeeds and only the delete-marker condition filters.
* `format_datetime_iso` renders a second-truncated datetime as an ISO-8601
  string; this rendering is injective on second-truncated datetimes, so the
  produced string is modelled by the whole-second value itself.
* The external `list_object_versions` call is a function from the zone's
  endpoint URL to either an error message (the string the endpoint extracts
  from the `ClientError`) or the raw response, for the fixed bucket and key of
  one reconciliation request.
* Python dictionaries are modelled as association lists in insertion order,
  with insert-or-replace semantics. -/

/-- A store datetime: whole seconds and microseconds. -/
structure Ts where
  sec : Int
  usec : Nat
deriving DecidableEq

/-- Python `<` on datetimes: lexicographic on (seconds, microseconds). -/
def Ts.lt (a b : Ts) : Bool :=
  decide (a.sec < b.sec) || (decide (a.sec = b.sec) && decide (a.usec < b.usec))

/-- A raw record of `list_object_versions` (an element of its `Versions` or
`DeleteMarkers` list). -/
structure RawRecord where
  key : String
  lastModified : Ts
  etag : Option String
  versionId : Option String
  size : Option Nat
  isLatest : Bool
deriving DecidableEq

/-- The raw response of `list_object_versions`: the two separate lists. -/
structure ListVersionsResp where
  versions : List RawRecord
  deleteMarkers : List RawRecord
deriving DecidableEq

/-- A merged entry: a raw record tagged with `IsDeleteMarker`
(app.py lines 130-137). -/
structure Entry where
  key : String
  lastModified : Ts
  etag : Option String
  versionId : Option String
  size : Option Nat
  isLatest : Bool
  isDeleteMarker : Bool
deriving DecidableEq

/-- Tagging a raw record with the provenance flag `IsDeleteMarker`. -/
def tagRecord (r : RawRecord) (isDel : Bool) : Entry :=
  ⟨r.key, r.lastModified, r.etag, r.versionId, r.size, r.isLatest, isDel⟩

/-- `format_datetime_iso` (s3_utils.py): `dt.replace(microsecond=0).isoformat()`
for a present datetime, `None` otherwise.  The ISO string is modelled by the
whole-second value (rendering is injective on second-truncated datetimes, and
the rendered string is never empty, hence always truthy). -/
def format_datetime_iso (dt : Option Ts) : Option Int :=
  match dt with
  | none => none
  | some t => some t.sec

/-- Python `s.strip(q)` for the double-quote character `q` (`Char.ofNat 34`):
removes every leading and every trailing quote character. -/
def stripQuotes (s : String) : String :=
  let cs := s.toList.dropWhile (fun c => c = Char.ofNat 34)
  String.mk ((cs.reverse.dropWhile (fun c => c = Char.ofNat 34)).reverse)

/-- `find_zone_url` (s3_utils.py lines 26-30): the URL of the first registry
entry with the given name, or the raised HTTP 404. -/
def find_zone_url (zones : List (String × String)) (name : String) :
    Except Nat String :=
  match zones.find? (fun p => p.1 = name) with
  | some p => Except.ok p.2
  | none => Except.error 404

/-- The left fold that keeps the first element attaining the maximal
timestamp (replacing the current best only on a strictly larger timestamp). -/
def foldBest {α : Type} (ts : α → Ts) (v : α) (vs : List α) : α :=
  vs.foldl (fun best x => if Ts.lt (ts best) (ts x) then x else best) v

/-- `latest_entry_for_key` (s3_utils.py lines 34-37):
`sorted(versions, key=LastModified, reverse=True)[0]` for a nonempty list.
The head of Python's stable descending sort is the first element attaining the
maximal `LastModified`, which is what `foldBest` computes. -/
def latest_entry_for_key : List Entry → Option Entry
  | [] => none
  | v :: vs => some (foldBest (fun e => e.lastModified) v vs)

/-- The serialized brief of an entry (the dictionary built by
`entry_to_brief`). -/
structure Brief where
  type : String
  version_id : Option String
  etag : Option String
  last_modified : Option Int
  size : Option Nat
  is_latest : Bool
deriving DecidableEq

/-- `entry_to_brief` (s3_utils.py lines 47-58).  The ETag is stripped of its
surrounding quote characters when present and truthy (non-empty), else
`None`. -/
def entry_to_brief : Option Entry → Option Brief
  | none => none
  | some e =>
    some { type := if e.isDeleteMarker then "DeleteMarker" else "Version"
           version_id := e.versionId
           etag :=
             match e.etag with
             | none => none
             | some s => if s = "" then none else some (stripQuotes s)
           last_modified := format_datetime_iso (some e.lastModified)
           size := e.size
           is_latest := e.isLatest }

/-- `find_best_version` (s3_utils.py lines 61-70): Python's
`max(valid, key=LastModified)` keeps the first element attaining the maximum.
The `entry.get("LastModified")` truthiness test of the source always holds
because record timestamps are always present. -/
def find_best_version (candidates : List (String × Entry))
    (ignore_delete_markers : Bool) : Option (String × Entry) :=
  match candidates.filter
      (fun p => !(ignore_delete_markers && p.2.isDeleteMarker)) with
  | [] => none
  | v :: vs => some (foldBest (fun p => p.2.lastModified) v vs)

/-- One value of the `per_zone` dictionary of `consistency_check`:
`zone`, `latest`, and (in the failure branch) `error`. -/
structure ZoneInfo where
  zone : String
  latest : Option Brief
  error : Option String
deriving DecidableEq

/-- Python dict insertion: replaces the value in place when the key exists
(keeping its original position), appends otherwise. -/
def dictInsert (d : List (String × ZoneInfo)) (k : String) (v : ZoneInfo) :
    List (String × ZoneInfo) :=
  if d.any (fun p => p.1 = k) then
    d.map (fun p => if p.1 = k then (k, v) else p)
  else d ++ [(k, v)]

/-- Python `dict.get`. -/
def dictGet (d : List (String × ZoneInfo)) (k : String) : Option ZoneInfo :=
  (d.find? (fun p => p.1 = k)).map (fun p => p.2)

/-- Python truthiness of the stored error message: present and non-empty. -/
def errTruthy : Option String → Bool
  | some s => decide (s ≠ "")
  | none => false

/-- The merged, tagged, exact-key-filtered version list of one zone
(app.py lines 128-138). -/
def mergedEntries (resp : ListVersionsResp) (key : String) : List Entry :=
  ((resp.versions.map (fun r => tagRecord r false)) ++
      (resp.deleteMarkers.map (fun r => tagRecord r true))).filter
    (fun v => v.key = key)

/-- One zone's `per_zone` value (the loop body of app.py lines 125-149). -/
def zoneInfoFor (fetch : String → Except String ListVersionsResp)
    (key zone_name zone_url : String) : ZoneInfo :=
  match fetch zone_url with
  | Except.ok resp =>
    ⟨zone_name, entry_to_brief (latest_entry_for_key (mergedEntries resp key)),
      none⟩
  | Except.error msg => ⟨zone_name, none, some msg⟩

/-- One zone's contribution to `latest_candidates` (the raw latest entry,
appended only when present). -/
def zoneLatestFor (fetch : String → Except String ListVersionsResp)
    (key zone_url : String) : Option Entry :=
  match fetch zone_url with
  | Except.ok resp => latest_entry_for_key (mergedEntries resp key)
  | Except.error _ => none

/-- The `per_zone` dictionary after the fetch loop. -/
def perZoneDict (zones : List (String × String))
    (fetch : String → Except String ListVersionsResp) (key : String) :
    List (String × ZoneInfo) :=
  zones.foldl (fun acc z => dictInsert acc z.1 (zoneInfoFor fetch key z.1 z.2))
    []

/-- The `latest_candidates` list after the fetch loop, in configured zone
order. -/
def latestCandidates (zones : List (String × String))
    (fetch : String → Except String ListVersionsResp) (key : String) :
    List (String × Entry) :=
  zones.filterMap (fun z => (zoneLatestFor fetch key z.2).map (fun e => (z.1, e)))

/-- `global_latest` (app.py line 152). -/
def global_latest (zones : List (String × String))
    (fetch : String → Except String ListVersionsResp) (key : String) :
    Option (String × Entry) :=
  find_best_version (latestCandidates zones fetch key) false

/-- `global_latest_is_delete` (app.py line 154). -/
def globalIsDelete (zones : List (String × String))
    (fetch : String → Except String ListVersionsResp) (key : String) : Bool :=
  match global_latest zones fetch key with
  | some g => g.2.isDeleteMarker
  | none => false

/-- `comparator_ts` (app.py lines 165-167); `LastModified` of the global
latest entry is always present and truthy. -/
def comparatorTs (zones : List (String × String))
    (fetch : String → Except String ListVersionsResp) (key : String) :
    Option Int :=
  match global_latest zones fetch key with
  | some g => format_datetime_iso (some g.2.lastModified)
  | none => none

/-- The state classification of one zone (app.py lines 170-181). -/
def classifyState (info : ZoneInfo) (global_latest_is_delete : Bool)
    (comparator_ts : Option Int) : String :=
  if errTruthy info.error then "Unknown"
  else
    match info.latest with
    | none => if global_latest_is_delete then "Latest" else "Missing"
    | some b =>
      if (match comparator_ts with
          | some c => decide (b.last_modified = some c)
          | none => false) then "Latest" else "Outdated"

/-- One element of `per_zone_list` (app.py lines 183-188); the `error` key is
present only when the stored message is truthy. -/
structure PZEntry where
  zone : String
  state : String
  latest : Option Brief
  error : Option String
deriving DecidableEq

/-- Building one `per_zone_list` element from a dictionary item. -/
def pzFor (zname : String) (info : ZoneInfo) (gdel : Bool) (cts : Option Int) :
    PZEntry :=
  ⟨zname, classifyState info gdel cts, info.latest,
    if errTruthy info.error then info.error else none⟩

/-- The `per_zone_list` row a single configured zone produces. -/
def zoneRow (fetch : String → Except String ListVersionsResp) (key : String)
    (gdel : Bool) (cts : Option Int) (z : String × String) : PZEntry :=
  pzFor z.1 (zoneInfoFor fetch key z.1 z.2) gdel cts

/-- The `etags` collection (app.py lines 191-196): the etag of every latest
entry that is present, not a delete marker, and has a truthy etag. -/
def collectEtags (pzs : List PZEntry) : List String :=
  pzs.filterMap (fun pz =>
    match pz.latest with
    | some b =>
      if b.type ≠ "DeleteMarker" then
        match b.etag with
        | some s => if s ≠ "" then some s else none
        | none => none
      else none
    | none => none)

/-- The reconciliation report returned by `/consistency/check`. -/
structure Report where
  consistent : Bool
  per_zone : List PZEntry
  recommended_download_zone : Option String
  current_zone_latest_is_delete_marker : Bool
deriving DecidableEq

/-- The `per_zone_list` of app.py lines 160-188: the dictionary items mapped
through the classification, in insertion order. -/
def perZoneList (zones : List (String × String))
    (fetch : String → Except String ListVersionsResp) (key : String) :
    List PZEntry :=
  (perZoneDict zones fetch key).map
    (fun p =>
      pzFor p.1 p.2 (globalIsDelete zones fetch key)
        (comparatorTs zones fetch key))

/-- The report built by `consistency_check` once the bucket guard has passed
(app.py lines 122-204).  `len(set(etags)) == 1` is `etags.dedup.length = 1`;
`current_zone_latest_is_delete_marker` is `per_zone.get(currentZone)`
followed by the two truthiness tests of app.py lines 161-163. -/
def buildReport (zones : List (String × String))
    (fetch : String → Except String ListVersionsResp)
    (key currentZone : String) : Report :=
  { consistent :=
      (decide (0 < (collectEtags (perZoneList zones fetch key)).length) &&
          decide ((collectEtags (perZoneList zones fetch key)).dedup.length = 1)) &&
        !((perZoneList zones fetch key).any (fun pz => pz.error.isSome))
    per_zone := perZoneList zones fetch key
    recommended_download_zone :=
      (find_best_version (latestCandidates zones fetch key) true).map
        (fun p => p.1)
    current_zone_latest_is_delete_marker :=
      match dictGet (perZoneDict zones fetch key) currentZone with
      | some info =>
        match info.latest with
        | some b => decide (b.type = "DeleteMarker")
        | none => false
      | none => false }

/-- The `/consistency/check` endpoint (app.py lines 106-204): `bkt = bucket or
DEFAULT_BUCKET`, the 400 guard, then the report.  A missing query parameter
or missing default is the empty string. -/
def consistency_check (zones : List (String × String))
    (fetch : String → Except String ListVersionsResp)
    (key currentZone bucket default_bucket : String) : Except Nat Report :=
  if (if bucket ≠ "" then bucket else default_bucket) = "" then
    Except.error 400
  else Except.ok (buildReport zones fetch key currentZone)

/-- The ETag values carried by the non-delete-marker latest entries of a
report, in the claim's own reading (every present `etag` value counts). -/
def claimEtags (r : Report) : List String :=
  r.per_zone.filterMap (fun pz =>
    match pz.latest with
    | some b => if b.type = "DeleteMarker" then none else b.etag
    | none => none)

/-- Whether a fetch outcome is a success. -/
def fetchOk : Except String ListVersionsResp → Bool
  | Except.ok _ => true
  | Except.error _ => false

/-- Well-formedness of a fetch outcome: an extracted error description is
non-empty (botocore's extraction defaults to the non-empty `"S3 Error"`). -/
def errOk : Except String ListVersionsResp → Bool
  | Except.ok _ => true
  | Except.error s => decide (s ≠ "")

/-- Well-formedness of a raw record's ETag: a truthy ETag does not consist
solely of quote characters. -/
def etagWf (rc : RawRecord) : Bool :=
  match rc.etag with
  | some s => decide (s = "") || decide (stripQuotes s ≠ "")
  | none => true

/-- Well-formedness of a fetch outcome's records' ETags. -/
def respWf : Except String ListVersionsResp → Bool
  | Except.ok resp => (resp.versions ++ resp.deleteMarkers).all etagWf
  | Except.error _ => true

/-- Whether the endpoint returned a report rather than raising. -/
def exIsOk : Except Nat Report → Bool
  | Except.ok _ => true
  | Except.error _ => false

/-- Concrete data: a plain version of key `k`. -/
def rawV1 : RawRecord :=
  ⟨"k", ⟨10, 5⟩, some "\"abc\"", some "v1", some 3, true⟩

/-- Concrete data: a version of an unrelated longer key. -/
def rawOther : RawRecord :=
  ⟨"k2", ⟨99, 0⟩, some "\"zzz\"", some "vx", some 1, true⟩

/-- Concrete data: a delete marker of key `k`. -/
def rawDM : RawRecord :=
  ⟨"k", ⟨9, 0⟩, none, some "v2", none, true⟩

/-- Concrete data: a response holding only the plain version. -/
def respV1 : ListVersionsResp := ⟨[rawV1], []⟩

/-- Concrete data: a response holding an unrelated key and a delete marker. -/
def respDM : ListVersionsResp := ⟨[rawOther], [rawDM]⟩

/-- Concrete store: zone `u1` live, zone `u2` deleted, every other zone
unreachable. -/
def fetchW : String → Except String ListVersionsResp :=
  fun u =>
    if u = "u1" then Except.ok respV1
    else if u = "u2" then Except.ok respDM
    else Except.error "boom"

/-- Concrete registry of three zones. -/
def zonesW : List (String × String) := [("z1", "u1"), ("z2", "u2"), ("z3", "u3")]

/-- The tagged latest entry of zone `z1` in the concrete store. -/
def entryV1 : Entry := tagRecord rawV1 false

/-- The tagged latest entry of zone `z2` in the concrete store. -/
def entryDM : Entry := tagRecord rawDM true

/-- Concrete store where every zone but `u1` is empty. -/
def fetchE : String → Except String ListVersionsResp :=
  fun u => if u = "u1" then Except.ok respV1 else Except.ok ⟨[], []⟩

/-- Concrete registry of two zones for the empty-zone scenario. -/
def zonesE : List (String × String) := [("z1", "u1"), ("z2", "u4")]

/-- Unfolding `Ts.lt` into arithmetic. -/
theorem Ts.lt_prop {a b : Ts} :
    Ts.lt a b = true ↔ (a.sec < b.sec ∨ (a.sec = b.sec ∧ a.usec < b.usec)) := by
  simp [Ts.lt]

/-- Transitivity of the datetime order. -/
theorem Ts.lt_trans {a b c : Ts} (h1 : Ts.lt a b = true)
    (h2 : Ts.lt b c = true) : Ts.lt a c = true := by
  rw [Ts.lt_prop] at h1 h2 ⊢
  omega

/-- Asymmetry of the datetime order. -/
theorem Ts.lt_asymm {a b : Ts} (h : Ts.lt a b = true) : Ts.lt b a = false := by
  rw [Ts.lt_prop] at h
  rw [Bool.eq_false_iff, ne_eq, Ts.lt_prop]
  omega

/-- Irreflexivity of the datetime order. -/
theorem Ts.lt_irrefl (a : Ts) : Ts.lt a a = false := by
  rw [Bool.eq_false_iff, ne_eq, Ts.lt_prop]
  omega

/-- If `x` is not below `y` but is below `m`, then `y` is below `m`. -/
theorem Ts.lt_of_not_lt_of_lt {x y m : Ts} (h1 : Ts.lt x y = false)
    (h2 : Ts.lt x m = true) : Ts.lt y m = true := by
  rw [Bool.eq_false_iff, ne_eq, Ts.lt_prop] at h1
  rw [Ts.lt_prop] at h2 ⊢
  omega

/-- One step of the first-maximum fold. -/
theorem foldBest_cons {α : Type} (ts : α → Ts) (v y : α) (ys : List α) :
    foldBest ts v (y :: ys) =
      foldBest ts (if Ts.lt (ts v) (ts y) then y else v) ys := rfl

/-- The fold keeps the first element attaining the maximal timestamp: the
input splits around the result, everything before it is strictly below it and
nothing after it is strictly above it. -/
theorem foldBest_split {α : Type} (ts : α → Ts) (vs : List α) (v : α) :
    ∃ pre post,
      v :: vs = pre ++ foldBest ts v vs :: post ∧
      (∀ a ∈ pre, Ts.lt (ts a) (ts (foldBest ts v vs)) = true) ∧
      (∀ a ∈ post, Ts.lt (ts (foldBest ts v vs)) (ts a) = false) := by
  induction vs generalizing v with
  | nil => exact ⟨[], [], rfl, by simp, by simp⟩
  | cons y ys ih =>
    rw [foldBest_cons]
    by_cases hlt : Ts.lt (ts v) (ts y) = true
    · rw [if_pos hlt]
      obtain ⟨pre, post, hsplit, hpre, hpost⟩ := ih y
      refine ⟨v :: pre, post, ?_, ?_, hpost⟩
      · rw [List.cons_append, ← hsplit]
      · intro a ha
        rcases List.mem_cons.mp ha with rfl | ha
        · cases pre with
          | nil =>
            rw [List.nil_append] at hsplit
            injection hsplit with h1 _
            rw [← h1]
            exact hlt
          | cons p pre' =>
            rw [List.cons_append] at hsplit
            injection hsplit with h1 _
            have hp : Ts.lt (ts p) (ts (foldBest ts y ys)) = true :=
              hpre p (List.mem_cons_self _ _)
            rw [h1] at hlt
            exact Ts.lt_trans hlt hp
        · exact hpre a ha
    · have hlt' : Ts.lt (ts v) (ts y) = false := Bool.eq_false_iff.mpr hlt
      rw [if_neg hlt]
      obtain ⟨pre, post, hsplit, hpre, hpost⟩ := ih v
      cases pre with
      | nil =>
        rw [List.nil_append] at hsplit
        injection hsplit with h1 h2
        refine ⟨[], y :: post, ?_, by simp, ?_⟩
        · rw [List.nil_append, ← h1, ← h2]
        · intro a ha
          rcases List.mem_cons.mp ha with rfl | ha
          · rw [← h1]; exact hlt'
          · exact hpost a ha
      | cons p pre' =>
        rw [List.cons_append] at hsplit
        injection hsplit with h1 h2
        have hpm : Ts.lt (ts v) (ts (foldBest ts v ys)) = true := by
          have hp := hpre p (List.mem_cons_self _ _)
          rw [← h1] at hp
          exact hp
        refine ⟨v :: y :: pre', post, ?_, ?_, hpost⟩
        · rw [List.cons_append, List.cons_append, ← h2]
        · intro a ha
          rcases List.mem_cons.mp ha with rfl | ha
          · exact hpm
          · rcases List.mem_cons.mp ha with rfl | ha
            · exact Ts.lt_of_not_lt_of_lt hlt' hpm
            · exact hpre a (List.mem_cons_of_mem _ ha)

/-- The fold's result is one of the inputs. -/
theorem foldBest_mem {α : Type} (ts : α → Ts) (vs : List α) (v : α) :
    foldBest ts v vs ∈ v :: vs := by
  obtain ⟨pre, post, hsplit, _, _⟩ := foldBest_split ts vs v
  rw [hsplit]
  exact List.mem_append_right _ (List.mem_cons_self _ _)

/-- No input is strictly above the fold's result. -/
theorem foldBest_max {α : Type} (ts : α → Ts) (vs : List α) (v : α) :
    ∀ a ∈ v :: vs, Ts.lt (ts (foldBest ts v vs)) (ts a) = false := by
  obtain ⟨pre, post, hsplit, hpre, hpost⟩ := foldBest_split ts vs v
  intro a ha
  rw [hsplit] at ha
  rcases List.mem_append.mp ha with ha | ha
  · exact Ts.lt_asymm (hpre a ha)
  · rcases List.mem_cons.mp ha with h | ha
    · rw [h]; exact Ts.lt_irrefl _
    · exact hpost a ha

/-- The selected latest entry is one of the zone's entries. -/
theorem latest_entry_mem {l : List Entry} {e : Entry}
    (h : latest_entry_for_key l = some e) : e ∈ l := by
  cases l with
  | nil => exact absurd h (by simp [latest_entry_for_key])
  | cons v vs =>
    simp only [latest_entry_for_key, Option.some.injEq] at h
    rw [← h]
    exact foldBest_mem _ _ _

/-- `find_best_version` on the empty list. -/
theorem fbv_nil (b : Bool) : find_best_version [] b = none := rfl

/-- `find_best_version` without the delete-marker exclusion filters nothing. -/
theorem fbv_false_cons (v : String × Entry) (vs : List (String × Entry)) :
    find_best_version (v :: vs) false =
      some (foldBest (fun p => p.2.lastModified) v vs) := by
  simp [find_best_version]

/-- With the exclusion flag, `find_best_version` is the flagless selection on
the delete-marker-free sublist. -/
theorem fbv_true (c : List (String × Entry)) :
    find_best_version c true =
      find_best_version (c.filter (fun p => !p.2.isDeleteMarker)) false := by
  simp [find_best_version, List.filter_filter]

/-- A nonempty candidate list always yields a flagless best version. -/
theorem fbv_false_some {c : List (String × Entry)} (h : c ≠ []) :
    ∃ g, find_best_version c false = some g := by
  cases c with
  | nil => exact absurd rfl h
  | cons v vs => exact ⟨_, fbv_false_cons v vs⟩

/-- The flagless best version splits the candidate list: all candidates
before it are strictly older, none after it is strictly newer. -/
theorem fbv_false_split {c : List (String × Entry)} {g : String × Entry}
    (h : find_best_version c false = some g) :
    ∃ pre post, c = pre ++ g :: post ∧
      (∀ p ∈ pre, Ts.lt p.2.lastModified g.2.lastModified = true) ∧
      (∀ p ∈ post, Ts.lt g.2.lastModified p.2.lastModified = false) := by
  cases c with
  | nil => exact absurd h (by simp [fbv_nil])
  | cons v vs =>
    rw [fbv_false_cons] at h
    simp only [Option.some.injEq] at h
    rw [← h]
    exact foldBest_split _ vs v

/-- The selected best version is among the candidates that pass the filter. -/
theorem fbv_mem {c : List (String × Entry)} {b : Bool} {g : String × Entry}
    (h : find_best_version c b = some g) :
    g ∈ c.filter (fun p => !(b && p.2.isDeleteMarker)) := by
  unfold find_best_version at h
  cases hc : c.filter (fun p => !(b && p.2.isDeleteMarker)) with
  | nil => rw [hc] at h; exact absurd h (by simp)
  | cons v vs =>
    rw [hc] at h
    simp only [Option.some.injEq] at h
    rw [← h]
    exact foldBest_mem _ _ _

/-- The delete-marker-excluding selection is empty exactly when every
candidate is a delete marker. -/
theorem fbv_true_none_iff (c : List (String × Entry)) :
    find_best_version c true = none ↔
      ∀ p ∈ c, p.2.isDeleteMarker = true := by
  rw [fbv_true]
  constructor
  · intro h p hp
    by_contra hne
    have hb : p.2.isDeleteMarker = false := Bool.eq_false_iff.mpr hne
    have hmem : p ∈ c.filter (fun p => !p.2.isDeleteMarker) :=
      List.mem_filter.mpr ⟨hp, by rw [hb]; rfl⟩
    cases hc : c.filter (fun p => !p.2.isDeleteMarker) with
    | nil => rw [hc] at hmem; exact absurd hmem (by simp)
    | cons v vs => rw [hc, fbv_false_cons] at h; exact absurd h (by simp)
  · intro h
    have hnil : c.filter (fun p => !p.2.isDeleteMarker) = [] :=
      List.filter_eq_nil_iff.mpr (fun p hp => by simp [h p hp])
    rw [hnil, fbv_nil]

/-- Inserting a fresh key appends. -/
theorem dictInsert_fresh {d : List (String × ZoneInfo)} {k : String}
    (v : ZoneInfo) (h : ∀ p ∈ d, p.1 ≠ k) :
    dictInsert d k v = d ++ [(k, v)] := by
  have hc : d.any (fun p => decide (p.1 = k)) = false := by
    rw [List.any_eq_false]
    intro p hp
    simpa using h p hp
  simp [dictInsert, hc]

/-- Folding fresh-keyed inserts over an accumulator appends the mapped
items. -/
theorem foldl_dictInsert (f : String × String → ZoneInfo)
    (zs : List (String × String)) :
    ∀ acc : List (String × ZoneInfo),
      (zs.map Prod.fst).Nodup →
      (∀ z ∈ zs, ∀ p ∈ acc, p.1 ≠ z.1) →
      zs.foldl (fun acc z => dictInsert acc z.1 (f z)) acc =
        acc ++ zs.map (fun z => (z.1, f z)) := by
  induction zs with
  | nil => intro acc _ _; simp
  | cons z zs ih =>
    intro acc hnd hfresh
    simp only [List.map_cons, List.nodup_cons] at hnd
    simp only [List.foldl_cons]
    rw [dictInsert_fresh (f z)
      (fun p hp => hfresh z (List.mem_cons_self _ _) p hp)]
    rw [ih (acc ++ [(z.1, f z)]) hnd.2 ?_]
    · simp
    · intro w hw p hp
      rcases List.mem_append.mp hp with hp | hp
      · exact hfresh w (List.mem_cons_of_mem _ hw) p hp
      · simp only [List.mem_singleton] at hp
        subst hp
        intro hEq
        apply hnd.1
        rw [hEq]
        exact List.mem_map_of_mem _ hw

/-- With pairwise-distinct zone names the `per_zone` dictionary is the zones
list itself, paired with each zone's info. -/
theorem perZoneDict_eq {zones : List (String × String)}
    (fetch : String → Except String ListVersionsResp) (key : String)
    (hnd : (zones.map Prod.fst).Nodup) :
    perZoneDict zones fetch key =
      zones.map (fun z => (z.1, zoneInfoFor fetch key z.1 z.2)) := by
  unfold perZoneDict
  rw [foldl_dictInsert _ zones [] hnd (by intro z _ p hp; exact absurd hp (by simp))]
  simp

/-- With pairwise-distinct zone names `per_zone_list` is the zones list
mapped through the per-zone row construction. -/
theorem perZoneList_eq {zones : List (String × String)}
    (fetch : String → Except String ListVersionsResp) (key : String)
    (hnd : (zones.map Prod.fst).Nodup) :
    perZoneList zones fetch key =
      zones.map
        (zoneRow fetch key (globalIsDelete zones fetch key)
          (comparatorTs zones fetch key)) := by
  unfold perZoneList zoneRow
  rw [perZoneDict_eq fetch key hnd, List.map_map]
  rfl

/-- Looking up a name that is not a configured zone name finds nothing. -/
theorem dictGet_none {zones : List (String × String)}
    (fetch : String → Except String ListVersionsResp) (key : String)
    {cz : String} (hnd : (zones.map Prod.fst).Nodup)
    (hcz : cz ∉ zones.map Prod.fst) :
    dictGet (perZoneDict zones fetch key) cz = none := by
  rw [perZoneDict_eq fetch key hnd]
  unfold dictGet
  rw [List.find?_eq_none.mpr ?_]
  · rfl
  · intro p hp
    obtain ⟨z, hz, rfl⟩ := List.mem_map.mp hp
    simp only [decide_eq_true_eq]
    intro h
    exact hcz (h ▸ List.mem_map_of_mem _ hz)

/-- A passing bucket guard yields the built report. -/
theorem check_eq_ok {zones : List (String × String)}
    {fetch : String → Except String ListVersionsResp}
    {key currentZone bucket dflt : String}
    (hb : bucket ≠ "" ∨ dflt ≠ "") :
    consistency_check zones fetch key currentZone bucket dflt =
      Except.ok (buildReport zones fetch key currentZone) := by
  unfold consistency_check
  by_cases h : bucket = ""
  · rcases hb with hb | hb
    · exact absurd h hb
    · simp [h, hb]
  · simp [h]

/-- A returned report is the built report. -/
theorem check_ok_inv {zones : List (String × String)}
    {fetch : String → Except String ListVersionsResp}
    {key currentZone bucket dflt : String} {r : Report}
    (hr : consistency_check zones fetch key currentZone bucket dflt =
      Except.ok r) :
    r = buildReport zones fetch key currentZone := by
  unfold consistency_check at hr
  by_cases h1 : bucket = ""
  · have hbkt : (if bucket ≠ "" then bucket else dflt) = dflt :=
      if_neg (by simp [h1])
    rw [hbkt] at hr
    by_cases h2 : dflt = ""
    · rw [if_pos h2] at hr
      exact absurd hr (by simp)
    · rw [if_neg h2] at hr
      simpa using hr.symm
  · have hbkt : (if bucket ≠ "" then bucket else dflt) = bucket := if_pos h1
    rw [hbkt, if_neg h1] at hr
    simpa using hr.symm

/-- The row of a zone whose fetch succeeded. -/
theorem zoneRow_ok {fetch : String → Except String ListVersionsResp}
    {key : String} {gdel : Bool} {cts : Option Int} {z : String × String}
    {resp : ListVersionsResp} (hf : fetch z.2 = Except.ok resp) :
    zoneRow fetch key gdel cts z =
      ⟨z.1,
        classifyState
          ⟨z.1, entry_to_brief (latest_entry_for_key (mergedEntries resp key)),
            none⟩ gdel cts,
        entry_to_brief (latest_entry_for_key (mergedEntries resp key)),
        none⟩ := by
  unfold zoneRow zoneInfoFor pzFor
  rw [hf]
  rfl

/-- The row of a zone whose fetch failed with a truthy message. -/
theorem zoneRow_err {fetch : String → Except String ListVersionsResp}
    {key : String} {gdel : Bool} {cts : Option Int} {z : String × String}
    {msg : String} (hf : fetch z.2 = Except.error msg) (hm : msg ≠ "") :
    zoneRow fetch key gdel cts z = ⟨z.1, "Unknown", none, some msg⟩ := by
  unfold zoneRow zoneInfoFor pzFor classifyState
  rw [hf]
  simp [errTruthy, hm]

/-- A failed zone's row has no latest entry (whatever the message). -/
theorem zoneRow_err_latest {fetch : String → Except String ListVersionsResp}
    {key : String} {gdel : Bool} {cts : Option Int} {z : String × String}
    {msg : String} (hf : fetch z.2 = Except.error msg) :
    (zoneRow fetch key gdel cts z).latest = none := by
  unfold zoneRow zoneInfoFor pzFor
  rw [hf]

/-- For well-formed error messages, the row's `error` key is present exactly
when the zone's fetch failed. -/
theorem zoneRow_error_isSome {fetch : String → Except String ListVersionsResp}
    {key : String} {gdel : Bool} {cts : Option Int} {z : String × String}
    (hmsg : errOk (fetch z.2) = true) :
    (zoneRow fetch key gdel cts z).error.isSome = !fetchOk (fetch z.2) := by
  cases hf : fetch z.2 with
  | ok resp => rw [zoneRow_ok hf]; rfl
  | error msg =>
    have hm : msg ≠ "" := by rw [hf] at hmsg; simpa [errOk] using hmsg
    rw [zoneRow_err hf hm]
    rfl

/-- `any_error = false` says exactly that every zone's fetch succeeded. -/
theorem anyError_false_iff (zones : List (String × String))
    (fetch : String → Except String ListVersionsResp) (key : String)
    (gdel : Bool) (cts : Option Int)
    (hmsg : ∀ z ∈ zones, errOk (fetch z.2) = true) :
    ((zones.map (zoneRow fetch key gdel cts)).any
        (fun pz => pz.error.isSome) = false) ↔
      ∀ z ∈ zones, fetchOk (fetch z.2) = true := by
  rw [List.any_eq_false]
  constructor
  · intro h z hz
    have h2 := h _ (List.mem_map_of_mem _ hz)
    rw [zoneRow_error_isSome (hmsg z hz)] at h2
    simpa using h2
  · intro h pz hpz
    obtain ⟨z, hz, rfl⟩ := List.mem_map.mp hpz
    rw [zoneRow_error_isSome (hmsg z hz), h z hz]
    simp

/-- Every merged entry's etag comes from a raw record of the response. -/
theorem mergedEntries_etag {resp : ListVersionsResp} {key : String}
    {e : Entry} (he : e ∈ mergedEntries resp key) :
    ∃ rc ∈ resp.versions ++ resp.deleteMarkers, e.etag = rc.etag := by
  unfold mergedEntries at he
  have he2 := (List.mem_filter.mp he).1
  rcases List.mem_append.mp he2 with h | h
  · obtain ⟨rc, hrc, rfl⟩ := List.mem_map.mp h
    exact ⟨rc, List.mem_append_left _ hrc, rfl⟩
  · obtain ⟨rc, hrc, rfl⟩ := List.mem_map.mp h
    exact ⟨rc, List.mem_append_right _ hrc, rfl⟩

/-- Briefs built from a well-formed response never carry an empty etag. -/
theorem brief_etag_wf {resp : ListVersionsResp} {key : String} {b : Brief}
    (hwf : respWf (Except.ok resp) = true)
    (hb : entry_to_brief (latest_entry_for_key (mergedEntries resp key)) =
      some b) :
    b.etag ≠ some "" := by
  cases hle : latest_entry_for_key (mergedEntries resp key) with
  | none => rw [hle] at hb; exact absurd hb (by simp [entry_to_brief])
  | some e =>
    rw [hle] at hb
    obtain ⟨rc, hrc, hetag⟩ := mergedEntries_etag (latest_entry_mem hle)
    have hwf2 : etagWf rc = true := by
      simp only [respWf, List.all_eq_true] at hwf
      exact hwf rc hrc
    have hbe : b.etag =
        match e.etag with
        | none => none
        | some s => if s = "" then none else some (stripQuotes s) := by
      simp only [entry_to_brief, Option.some.injEq] at hb
      rw [← hb]
    rw [hbe]
    cases het : e.etag with
    | none => simp
    | some s =>
      by_cases hs : s = ""
      · simp [hs]
      · have hrc2 : rc.etag = some s := by rw [← hetag, het]
        have hsq : stripQuotes s ≠ "" := by
          unfold etagWf at hwf2
          rw [hrc2] at hwf2
          simpa [hs] using hwf2
        simp [hs, hsq]

/-- A nonempty list with all elements equal dedups to a singleton. -/
theorem dedup_all_eq {v : String} :
    ∀ l : List String, l ≠ [] → (∀ e ∈ l, e = v) → l.dedup = [v] := by
  intro l
  induction l with
  | nil => intro h _; exact absurd rfl h
  | cons a t ih =>
    intro _ hall
    have ha : a = v := hall a (List.mem_cons_self _ _)
    cases t with
    | nil =>
      rw [ha, List.dedup_cons_of_not_mem (by simp), List.dedup_nil]
    | cons b t' =>
      have hb : b = v :=
        hall b (List.mem_cons_of_mem _ (List.mem_cons_self _ _))
      have hmem : a ∈ b :: t' := by
        rw [ha, hb]; exact List.mem_cons_self _ _
      rw [List.dedup_cons_of_mem hmem]
      exact ih (by simp) (fun e he => hall e (List.mem_cons_of_mem _ he))

/-- Python's `len(etags) > 0 and len(set(etags)) == 1`: the list is nonempty
and carries exactly one distinct value. -/
theorem dedup_len_one_iff {l : List String} :
    (0 < l.length ∧ l.dedup.length = 1) ↔
      (l ≠ [] ∧ ∃ v, ∀ e ∈ l, e = v) := by
  constructor
  · rintro ⟨hlen, hded⟩
    obtain ⟨w, hw⟩ := List.length_eq_one.mp hded
    refine ⟨List.length_pos.mp hlen, w, ?_⟩
    intro e he
    have hmem : e ∈ l.dedup := List.mem_dedup.mpr he
    rw [hw] at hmem
    simpa using hmem
  · rintro ⟨hne, v, hv⟩
    refine ⟨List.length_pos.mpr hne, ?_⟩
    rw [dedup_all_eq l hne hv]
    rfl

/-- With well-formed briefs, the collected etags are the claim's etags. -/
theorem collect_eq_claim {rows : List PZEntry}
    (hwf : ∀ pz ∈ rows, ∀ b, pz.latest = some b → b.etag ≠ some "") :
    collectEtags rows =
      rows.filterMap (fun pz =>
        match pz.latest with
        | some b => if b.type = "DeleteMarker" then none else b.etag
        | none => none) := by
  unfold collectEtags
  apply List.filterMap_congr
  intro pz hpz
  cases hl : pz.latest with
  | none => rfl
  | some b =>
    by_cases hdm : b.type = "DeleteMarker"
    · simp [hdm]
    · cases he : b.etag with
      | none => simp [hdm, he]
      | some s =>
        have hs : s ≠ "" := by
          intro hs0
          exact hwf pz hpz b hl (by rw [he, hs0])
        simp [hdm, he, hs]

/-- Claim C1: for every reconciliation request (with pairwise-distinct
configured zone names and well-formed store data: non-empty extracted error
descriptions, no ETag consisting solely of quote characters), the returned
`consistent` flag is true if and only if no zone's fetch produced an error
and the set of ETag values carried by the zones' non-delete-marker latest
entries is non-empty and contains exactly one distinct value. -/
theorem C1_consistent_iff (zones : List (String × String))
    (fetch : String → Except String ListVersionsResp)
    (key currentZone bucket dflt : String) (r : Report)
    (hnd : (zones.map Prod.fst).Nodup)
    (hmsg : ∀ z ∈ zones, errOk (fetch z.2) = true)
    (hwf : ∀ z ∈ zones, respWf (fetch z.2) = true)
    (hr : consistency_check zones fetch key currentZone bucket dflt =
      Except.ok r) :
    r.consistent = true ↔
      ((∀ z ∈ zones, fetchOk (fetch z.2) = true) ∧
        claimEtags r ≠ [] ∧ ∃ v, ∀ e ∈ claimEtags r, e = v) := by
  have hrb := check_ok_inv hr
  subst hrb
  have hrows := perZoneList_eq fetch key hnd
  have hwf' : ∀ pz ∈ perZoneList zones fetch key, ∀ b,
      pz.latest = some b → b.etag ≠ some "" := by
    rw [hrows]
    intro pz hpz b hb
    obtain ⟨z, hz, rfl⟩ := List.mem_map.mp hpz
    cases hf : fetch z.2 with
    | ok resp =>
      rw [zoneRow_ok hf] at hb
      exact brief_etag_wf (hf ▸ hwf z hz) hb
    | error msg =>
      rw [zoneRow_err_latest hf] at hb
      exact absurd hb (by simp)
  have hce : collectEtags (perZoneList zones fetch key) =
      claimEtags (buildReport zones fetch key currentZone) :=
    collect_eq_claim hwf'
  show ((decide (0 < (collectEtags (perZoneList zones fetch key)).length) &&
      decide ((collectEtags (perZoneList zones fetch key)).dedup.length = 1)) &&
      !((perZoneList zones fetch key).any (fun pz => pz.error.isSome))) =
      true ↔ _
  rw [hce, hrows]
  simp only [Bool.and_eq_true, Bool.not_eq_true', decide_eq_true_eq]
  rw [anyError_false_iff zones fetch key (globalIsDelete zones fetch key)
    (comparatorTs zones fetch key) hmsg]
  rw [dedup_len_one_iff]
  tauto

/-- Claim C1 witness: the three-zone scenario (one live zone, one deleted
zone, one unreachable zone) instantiates the theorem. -/
theorem C1_witness :
    (buildReport zonesW fetchW "k" "z1").consistent = true ↔
      ((∀ z ∈ zonesW, fetchOk (fetchW z.2) = true) ∧
        claimEtags (buildReport zonesW fetchW "k" "z1") ≠ [] ∧
        ∃ v, ∀ e ∈ claimEtags (buildReport zonesW fetchW "k" "z1"), e = v) :=
  C1_consistent_iff zonesW fetchW "k" "z1" "b" ""
    (buildReport zonesW fetchW "k" "z1") (by decide) (by decide) (by decide)
    rfl

/-- A present per-zone latest of a configured zone is a candidate. -/
theorem mem_latestCandidates {zones : List (String × String)}
    {fetch : String → Except String ListVersionsResp} {key : String}
    {z : String × String} {e : Entry} (hz : z ∈ zones)
    (hl : zoneLatestFor fetch key z.2 = some e) :
    (z.1, e) ∈ latestCandidates zones fetch key := by
  unfold latestCandidates
  exact List.mem_filterMap.mpr ⟨z, hz, by rw [hl]; rfl⟩

/-- If any candidate exists, a global latest is selected. -/
theorem global_latest_isSome {zones : List (String × String)}
    {fetch : String → Except String ListVersionsResp} {key : String}
    {c : String × Entry} (hc : c ∈ latestCandidates zones fetch key) :
    ∃ g, global_latest zones fetch key = some g := by
  unfold global_latest
  apply fbv_false_some
  intro h0
  rw [h0] at hc
  exact absurd hc (by simp)

/-- Classification of a zone with a present latest entry and no error. -/
theorem classify_some (zname : String) (b : Brief) (gdel : Bool) (c : Int) :
    classifyState ⟨zname, some b, none⟩ gdel (some c) =
      if b.last_modified = some c then "Latest" else "Outdated" := by
  unfold classifyState errTruthy
  simp

/-- Claim C2: a zone whose fetch succeeded and whose latest entry is present
is classified `Latest` exactly when its entry's timestamp truncated to whole
seconds equals the global latest entry's timestamp truncated the same way,
and `Outdated` otherwise (distinct zone names assumed). -/
theorem C2_state_latest_iff (zones : List (String × String))
    (fetch : String → Except String ListVersionsResp)
    (key currentZone bucket dflt : String) (r : Report)
    (z : String × String) (resp : ListVersionsResp) (e : Entry)
    (hnd : (zones.map Prod.fst).Nodup)
    (hr : consistency_check zones fetch key currentZone bucket dflt =
      Except.ok r)
    (hz : z ∈ zones) (hf : fetch z.2 = Except.ok resp)
    (hle : latest_entry_for_key (mergedEntries resp key) = some e) :
    ∃ g, global_latest zones fetch key = some g ∧
      (PZEntry.mk z.1
        (if e.lastModified.sec = g.2.lastModified.sec then "Latest"
         else "Outdated")
        (entry_to_brief (some e)) none) ∈ r.per_zone := by
  have hrb := check_ok_inv hr
  subst hrb
  have hlz : zoneLatestFor fetch key z.2 = some e := by
    unfold zoneLatestFor
    rw [hf]
    exact hle
  obtain ⟨g, hg⟩ := global_latest_isSome (mem_latestCandidates hz hlz)
  refine ⟨g, hg, ?_⟩
  show _ ∈ perZoneList zones fetch key
  rw [perZoneList_eq fetch key hnd]
  have hcts : comparatorTs zones fetch key = some g.2.lastModified.sec := by
    unfold comparatorTs
    rw [hg]
    rfl
  have hrow : zoneRow fetch key (globalIsDelete zones fetch key)
      (comparatorTs zones fetch key) z =
      PZEntry.mk z.1
        (if e.lastModified.sec = g.2.lastModified.sec then "Latest"
         else "Outdated")
        (entry_to_brief (some e)) none := by
    rw [zoneRow_ok hf, hle, hcts]
    simp [classify_some, entry_to_brief, format_datetime_iso]
  rw [← hrow]
  exact List.mem_map_of_mem _ hz

/-- Claim C2 witness: the live zone of the three-zone scenario. -/
theorem C2_witness :
    ∃ g, global_latest zonesW fetchW "k" = some g ∧
      (PZEntry.mk "z1"
        (if entryV1.lastModified.sec = g.2.lastModified.sec then "Latest"
         else "Outdated")
        (entry_to_brief (some entryV1)) none) ∈
        (buildReport zonesW fetchW "k" "z1").per_zone :=
  C2_state_latest_iff zonesW fetchW "k" "z1" "b" ""
    (buildReport zonesW fetchW "k" "z1") ("z1", "u1") respV1 entryV1
    (by decide) rfl (by decide) rfl rfl

/-- Claim C3: a zone whose fetch succeeded but which holds no entries for the
key is classified `Latest` when the global latest is a delete marker and
`Missing` otherwise — including when no global latest exists at all, in which
case `global_latest_is_delete` is false and the zone is `Missing`. -/
theorem C3_absent_zone (zones : List (String × String))
    (fetch : String → Except String ListVersionsResp)
    (key currentZone bucket dflt : String) (r : Report)
    (z : String × String) (resp : ListVersionsResp)
    (hnd : (zones.map Prod.fst).Nodup)
    (hr : consistency_check zones fetch key currentZone bucket dflt =
      Except.ok r)
    (hz : z ∈ zones) (hf : fetch z.2 = Except.ok resp)
    (hle : latest_entry_for_key (mergedEntries resp key) = none) :
    (PZEntry.mk z.1
      (if globalIsDelete zones fetch key then "Latest" else "Missing")
      none none) ∈ r.per_zone := by
  have hrb := check_ok_inv hr
  subst hrb
  show _ ∈ perZoneList zones fetch key
  rw [perZoneList_eq fetch key hnd]
  have hrow : zoneRow fetch key (globalIsDelete zones fetch key)
      (comparatorTs zones fetch key) z =
      PZEntry.mk z.1
        (if globalIsDelete zones fetch key then "Latest" else "Missing")
        none none := by
    rw [zoneRow_ok hf, hle]
    simp [classifyState, errTruthy, entry_to_brief]
  rw [← hrow]
  exact List.mem_map_of_mem _ hz

/-- Claim C3 witness: the empty zone of the two-zone scenario (the global
latest is a live version, so the zone is `Missing`). -/
theorem C3_witness :
    (PZEntry.mk "z2"
      (if globalIsDelete zonesE fetchE "k" then "Latest" else "Missing")
      none none) ∈ (buildReport zonesE fetchE "k" "z2").per_zone :=
  C3_absent_zone zonesE fetchE "k" "z2" "b" ""
    (buildReport zonesE fetchE "k" "z2") ("z2", "u4") ⟨[], []⟩
    (by decide) rfl (by decide) rfl rfl

/-- Claim C4: the global latest is selected among the error-free zones'
latest entries (`latestCandidates` lists them in configured zone order) as
the entry with the maximal raw `last_modified`; when several share the
maximum the first-listed zone wins: the candidate list splits around the
selected pair, every earlier candidate is strictly older, and no candidate
anywhere is strictly newer. -/
theorem C4_global_argmax_first (zones : List (String × String))
    (fetch : String → Except String ListVersionsResp) (key : String)
    (zn : String) (e : Entry)
    (hg : global_latest zones fetch key = some (zn, e)) :
    ∃ pre post, latestCandidates zones fetch key = pre ++ (zn, e) :: post ∧
      (∀ c ∈ pre, Ts.lt c.2.lastModified e.lastModified = true) ∧
      (∀ c ∈ post, Ts.lt e.lastModified c.2.lastModified = false) ∧
      (∀ c ∈ latestCandidates zones fetch key,
        Ts.lt e.lastModified c.2.lastModified = false) := by
  unfold global_latest at hg
  obtain ⟨pre, post, hsplit, hpre, hpost⟩ := fbv_false_split hg
  refine ⟨pre, post, hsplit, hpre, hpost, ?_⟩
  intro c hc
  rw [hsplit] at hc
  rcases List.mem_append.mp hc with hc | hc
  · exact Ts.lt_asymm (hpre c hc)
  · rcases List.mem_cons.mp hc with h | hc
    · rw [h]
      exact Ts.lt_irrefl _
    · exact hpost c hc

/-- Claim C4 witness: in the three-zone scenario the global latest is the
live zone's version entry. -/
theorem C4_witness :
    ∃ pre post,
      latestCandidates zonesW fetchW "k" = pre ++ ("z1", entryV1) :: post ∧
      (∀ c ∈ pre, Ts.lt c.2.lastModified entryV1.lastModified = true) ∧
      (∀ c ∈ post, Ts.lt entryV1.lastModified c.2.lastModified = false) ∧
      (∀ c ∈ latestCandidates zonesW fetchW "k",
        Ts.lt entryV1.lastModified c.2.lastModified = false) :=
  C4_global_argmax_first zonesW fetchW "k" "z1" entryV1 (by decide)

/-- Claim C5: the recommended download zone is the same first-maximum
selection with every delete-marker candidate excluded, and it is absent
exactly when every error-free zone's latest entry is a delete marker. -/
theorem C5_recommended_selection (zones : List (String × String))
    (fetch : String → Except String ListVersionsResp)
    (key currentZone bucket dflt : String) (r : Report)
    (hr : consistency_check zones fetch key currentZone bucket dflt =
      Except.ok r) :
    r.recommended_download_zone =
      (find_best_version
        ((latestCandidates zones fetch key).filter
          (fun c => !c.2.isDeleteMarker)) false).map (fun p => p.1) ∧
    (r.recommended_download_zone = none ↔
      ∀ c ∈ latestCandidates zones fetch key, c.2.isDeleteMarker = true) := by
  have hrb := check_ok_inv hr
  subst hrb
  constructor
  · show (find_best_version (latestCandidates zones fetch key) true).map
        (fun p => p.1) = _
    rw [fbv_true]
  · show ((find_best_version (latestCandidates zones fetch key) true).map
        (fun p => p.1) = none) ↔ _
    rw [Option.map_eq_none']
    exact fbv_true_none_iff _

/-- Claim C5 witness: the three-zone scenario instantiates the theorem. -/
theorem C5_witness :
    (buildReport zonesW fetchW "k" "z1").recommended_download_zone =
      (find_best_version
        ((latestCandidates zonesW fetchW "k").filter
          (fun c => !c.2.isDeleteMarker)) false).map (fun p => p.1) ∧
    ((buildReport zonesW fetchW "k" "z1").recommended_download_zone = none ↔
      ∀ c ∈ latestCandidates zonesW fetchW "k", c.2.isDeleteMarker = true) :=
  C5_recommended_selection zonesW fetchW "k" "z1" "b" ""
    (buildReport zonesW fetchW "k" "z1") rfl

/-- Filtering away only elements the map sends to `none` leaves a filter-map
unchanged. -/
theorem filterMap_filter_none {α β : Type} (p : α → Bool) (g : α → Option β)
    (l : List α) (h : ∀ a ∈ l, p a = false → g a = none) :
    (l.filter p).filterMap g = l.filterMap g := by
  induction l with
  | nil => rfl
  | cons a l ih =>
    have ih2 := ih (fun x hx hp => h x (List.mem_cons_of_mem _ hx) hp)
    by_cases hp : p a = true
    · rw [List.filter_cons_of_pos hp]
      simp only [List.filterMap_cons]
      cases g a
      · exact ih2
      · rw [ih2]
    · have hp' : p a = false := Bool.eq_false_iff.mpr hp
      rw [List.filter_cons_of_neg hp]
      simp only [List.filterMap_cons, h a (List.mem_cons_self _ _) hp']
      exact ih2

/-- Dropping a zone that contributes no candidate leaves the candidate list
unchanged. -/
theorem latestCandidates_drop {zones : List (String × String)}
    {fetch : String → Except String ListVersionsResp} {key : String}
    {z : String × String} (hnd : (zones.map Prod.fst).Nodup) (hz : z ∈ zones)
    (hnone : zoneLatestFor fetch key z.2 = none) :
    latestCandidates (zones.filter (fun w => w.1 ≠ z.1)) fetch key =
      latestCandidates zones fetch key := by
  unfold latestCandidates
  apply filterMap_filter_none
  intro w hw hp
  have hw1 : w.1 = z.1 := by simpa using hp
  have hwz : w = z := List.inj_on_of_nodup_map hnd hw hz hw1
  rw [hwz, hnone]
  rfl

/-- Claim C6: if one zone's fetch fails (with a non-empty extracted message),
the reconciliation request still succeeds; the failed zone is reported with
the error description, no latest entry, and state `Unknown`; every other
error-free zone's row carries the latest entry computed from its own records
alone; and removing the failed zone from the configuration leaves every other
zone's row and the recommended zone unchanged. -/
theorem C6_error_isolation (zones : List (String × String))
    (fetch : String → Except String ListVersionsResp)
    (key currentZone bucket dflt : String) (z : String × String)
    (msg : String)
    (hnd : (zones.map Prod.fst).Nodup) (hz : z ∈ zones)
    (hf : fetch z.2 = Except.error msg) (hm : msg ≠ "")
    (hb : bucket ≠ "" ∨ dflt ≠ "") :
    ∃ r r',
      consistency_check zones fetch key currentZone bucket dflt =
        Except.ok r ∧
      consistency_check (zones.filter (fun w => w.1 ≠ z.1)) fetch key
        currentZone bucket dflt = Except.ok r' ∧
      PZEntry.mk z.1 "Unknown" none (some msg) ∈ r.per_zone ∧
      (∀ w ∈ zones, w.1 ≠ z.1 → ∀ resp, fetch w.2 = Except.ok resp →
        ∃ st, PZEntry.mk w.1 st
          (entry_to_brief (latest_entry_for_key (mergedEntries resp key)))
          none ∈ r.per_zone) ∧
      r'.per_zone = r.per_zone.filter (fun pz => pz.zone ≠ z.1) ∧
      r'.recommended_download_zone = r.recommended_download_zone := by
  have hndF : ((zones.filter (fun w => w.1 ≠ z.1)).map Prod.fst).Nodup :=
    List.Nodup.sublist (List.Sublist.map _ (List.filter_sublist _)) hnd
  have hnone : zoneLatestFor fetch key z.2 = none := by
    unfold zoneLatestFor
    rw [hf]
  have hcand := latestCandidates_drop hnd hz hnone
  have hgd : globalIsDelete (zones.filter (fun w => w.1 ≠ z.1)) fetch key =
      globalIsDelete zones fetch key := by
    unfold globalIsDelete global_latest
    rw [hcand]
  have hcts : comparatorTs (zones.filter (fun w => w.1 ≠ z.1)) fetch key =
      comparatorTs zones fetch key := by
    unfold comparatorTs global_latest
    rw [hcand]
  refine ⟨buildReport zones fetch key currentZone,
    buildReport (zones.filter (fun w => w.1 ≠ z.1)) fetch key currentZone,
    check_eq_ok hb, check_eq_ok hb, ?_, ?_, ?_, ?_⟩
  · show _ ∈ perZoneList zones fetch key
    rw [perZoneList_eq fetch key hnd]
    have hrow : zoneRow fetch key (globalIsDelete zones fetch key)
        (comparatorTs zones fetch key) z =
        PZEntry.mk z.1 "Unknown" none (some msg) := zoneRow_err hf hm
    rw [← hrow]
    exact List.mem_map_of_mem _ hz
  · intro w hw hne resp hfw
    refine ⟨classifyState ⟨w.1,
      entry_to_brief (latest_entry_for_key (mergedEntries resp key)), none⟩
      (globalIsDelete zones fetch key) (comparatorTs zones fetch key), ?_⟩
    show _ ∈ perZoneList zones fetch key
    rw [perZoneList_eq fetch key hnd]
    have hrow : zoneRow fetch key (globalIsDelete zones fetch key)
        (comparatorTs zones fetch key) w =
        PZEntry.mk w.1
          (classifyState ⟨w.1,
            entry_to_brief (latest_entry_for_key (mergedEntries resp key)),
            none⟩
            (globalIsDelete zones fetch key) (comparatorTs zones fetch key))
          (entry_to_brief (latest_entry_for_key (mergedEntries resp key)))
          none := zoneRow_ok hfw
    rw [← hrow]
    exact List.mem_map_of_mem _ hw
  · show perZoneList (zones.filter (fun w => w.1 ≠ z.1)) fetch key =
        (perZoneList zones fetch key).filter (fun pz => pz.zone ≠ z.1)
    rw [perZoneList_eq fetch key hndF, perZoneList_eq fetch key hnd, hgd,
      hcts, List.filter_map]
    congr 1
  · show (find_best_version
        (latestCandidates (zones.filter (fun w => w.1 ≠ z.1)) fetch key)
        true).map (fun p => p.1) = _
    rw [hcand]
    rfl

/-- Claim C6 witness: the unreachable third zone of the three-zone
scenario. -/
theorem C6_witness :
    ∃ r r',
      consistency_check zonesW fetchW "k" "z1" "b" "" = Except.ok r ∧
      consistency_check (zonesW.filter (fun w => w.1 ≠ "z3")) fetchW "k" "z1"
        "b" "" = Except.ok r' ∧
      PZEntry.mk "z3" "Unknown" none (some "boom") ∈ r.per_zone ∧
      (∀ w ∈ zonesW, w.1 ≠ "z3" → ∀ resp, fetchW w.2 = Except.ok resp →
        ∃ st, PZEntry.mk w.1 st
          (entry_to_brief (latest_entry_for_key (mergedEntries resp "k")))
          none ∈ r.per_zone) ∧
      r'.per_zone = r.per_zone.filter (fun pz => pz.zone ≠ "z3") ∧
      r'.recommended_download_zone = r.recommended_download_zone :=
  C6_error_isolation zonesW fetchW "k" "z1" "b" "" ("z3", "u3") "boom"
    (by decide) (by decide) rfl (by decide) (Or.inl (by decide))

/-- Claim C7 counterexample: `ghost` is not a configured zone name, yet the
reconciliation request is not rejected — the endpoint returns a report, so
the claimed immediate request-validation error does not occur. -/
theorem C7_counterexample :
    ¬("ghost" ∈ zonesW.map Prod.fst) ∧
      exIsOk (consistency_check zonesW fetchW "k" "ghost" "b" "") = true := by
  decide

/-- Claim C7 amended: the reconciliation endpoint performs no validation of
the caller-supplied current zone: an unknown `currentZone` is processed
normally and merely yields `current_zone_latest_is_delete_marker = false`.
The 404 zone-name validation lives only in `find_zone_url`, which the
listing, presign and delete endpoints use — not `consistency_check`. -/
theorem C7_amended_no_validation (zones : List (String × String))
    (fetch : String → Except String ListVersionsResp)
    (key currentZone bucket dflt : String)
    (hnd : (zones.map Prod.fst).Nodup)
    (hcz : currentZone ∉ zones.map Prod.fst)
    (hb : bucket ≠ "" ∨ dflt ≠ "") :
    (∃ r, consistency_check zones fetch key currentZone bucket dflt =
        Except.ok r ∧
      r.current_zone_latest_is_delete_marker = false) ∧
    find_zone_url zones currentZone = Except.error 404 := by
  constructor
  · refine ⟨buildReport zones fetch key currentZone, check_eq_ok hb, ?_⟩
    show (match dictGet (perZoneDict zones fetch key) currentZone with
      | some info =>
        match info.latest with
        | some b => decide (b.type = "DeleteMarker")
        | none => false
      | none => false) = false
    rw [dictGet_none fetch key hnd hcz]
  · unfold find_zone_url
    rw [List.find?_eq_none.mpr ?_]
    intro p hp
    simp only [decide_eq_true_eq]
    intro h
    exact hcz (h ▸ List.mem_map_of_mem _ hp)

/-- Claim C7 amended witness: the three-zone scenario with current zone
`ghost`. -/
theorem C7_amended_witness :
    (∃ r, consistency_check zonesW fetchW "k" "ghost" "b" "" =
        Except.ok r ∧
      r.current_zone_latest_is_delete_marker = false) ∧
    find_zone_url zonesW "ghost" = Except.error 404 :=
  C7_amended_no_validation zonesW fetchW "k" "ghost" "b" "" (by decide)
    (by decide) (Or.inl (by decide))

/-- Pre-filtering the response lists to the exact key leaves the merged,
tagged, filtered entry list unchanged. -/
theorem mergedEntries_prefilter (resp : ListVersionsResp) (key : String) :
    mergedEntries
      ⟨resp.versions.filter (fun rc => rc.key = key),
        resp.deleteMarkers.filter (fun rc => rc.key = key)⟩ key =
      mergedEntries resp key := by
  unfold mergedEntries
  rw [List.filter_append, List.filter_append]
  congr 1
  · rw [List.filter_map, List.filter_map]
    congr 1
    rw [List.filter_filter]
    exact List.filter_congr (fun rc _ => by simp [tagRecord])
  · rw [List.filter_map, List.filter_map]
    congr 1
    rw [List.filter_filter]
    exact List.filter_congr (fun rc _ => by simp [tagRecord])

/-- Claim C8: records whose key differs from the requested key never
influence the report.  Pre-filtering every zone's response to the exact key
before the endpoint runs leaves the endpoint's whole output unchanged, so
such records affect no zone's latest entry, no state, and not the verdict. -/
theorem C8_exact_key_filter (zones : List (String × String))
    (fetch : String → Except String ListVersionsResp)
    (key currentZone bucket dflt : String) :
    consistency_check zones
      (fun u => (fetch u).map (fun resp =>
        (⟨resp.versions.filter (fun rc => rc.key = key),
          resp.deleteMarkers.filter (fun rc => rc.key = key)⟩ :
          ListVersionsResp)))
      key currentZone bucket dflt =
    consistency_check zones fetch key currentZone bucket dflt := by
  have hinfo : ∀ n u,
      zoneInfoFor (fun u => (fetch u).map (fun resp =>
        (⟨resp.versions.filter (fun rc => rc.key = key),
          resp.deleteMarkers.filter (fun rc => rc.key = key)⟩ :
          ListVersionsResp))) key n u =
      zoneInfoFor fetch key n u := by
    intro n u
    unfold zoneInfoFor
    cases hf : fetch u with
    | ok resp => simp [hf, Except.map, mergedEntries_prefilter]
    | error msg => simp [hf, Except.map]
  have hlat : ∀ u,
      zoneLatestFor (fun u => (fetch u).map (fun resp =>
        (⟨resp.versions.filter (fun rc => rc.key = key),
          resp.deleteMarkers.filter (fun rc => rc.key = key)⟩ :
          ListVersionsResp))) key u =
      zoneLatestFor fetch key u := by
    intro u
    unfold zoneLatestFor
    cases hf : fetch u with
    | ok resp => simp [hf, Except.map, mergedEntries_prefilter]
    | error msg => simp [hf, Except.map]
  have hdict :
      perZoneDict zones (fun u => (fetch u).map (fun resp =>
        (⟨resp.versions.filter (fun rc => rc.key = key),
          resp.deleteMarkers.filter (fun rc => rc.key = key)⟩ :
          ListVersionsResp))) key =
      perZoneDict zones fetch key := by
    unfold perZoneDict
    simp only [hinfo]
  have hcand :
      latestCandidates zones (fun u => (fetch u).map (fun resp =>
        (⟨resp.versions.filter (fun rc => rc.key = key),
          resp.deleteMarkers.filter (fun rc => rc.key = key)⟩ :
          ListVersionsResp))) key =
      latestCandidates zones fetch key := by
    unfold latestCandidates
    simp only [hlat]
  have hbr :
      buildReport zones (fun u => (fetch u).map (fun resp =>
        (⟨resp.versions.filter (fun rc => rc.key = key),
          resp.deleteMarkers.filter (fun rc => rc.key = key)⟩ :
          ListVersionsResp))) key currentZone =
      buildReport zones fetch key currentZone := by
    unfold buildReport perZoneList globalIsDelete comparatorTs global_latest
    rw [hdict, hcand]
  unfold consistency_check
  rw [hbr]

/-- Claim C9: for every reconciliation request (with distinct configured zone
names) and every fetch outcome, the report's `per_zone` lists exactly one row
per configured zone, in the configured zone order. -/
theorem C9_per_zone_order (zones : List (String × String))
    (fetch : String → Except String ListVersionsResp)
    (key currentZone bucket dflt : String)
    (hnd : (zones.map Prod.fst).Nodup) (hb : bucket ≠ "" ∨ dflt ≠ "") :
    ∃ r, consistency_check zones fetch key currentZone bucket dflt =
        Except.ok r ∧
      r.per_zone.map (fun pz => pz.zone) = zones.map Prod.fst := by
  refine ⟨_, check_eq_ok hb, ?_⟩
  show (perZoneList zones fetch key).map (fun pz => pz.zone) = _
  rw [perZoneList_eq fetch key hnd, List.map_map]
  rfl

/-- Claim C9 witness: the three-zone scenario (one zone unreachable). -/
theorem C9_witness :
    ∃ r, consistency_check zonesW fetchW "k" "z1" "b" "" = Except.ok r ∧
      r.per_zone.map (fun pz => pz.zone) = zonesW.map Prod.fst :=
  C9_per_zone_order zonesW fetchW "k" "z1" "b" "" (by decide)
    (Or.inl (by decide))

/-- Claim C10: a non-null recommended download zone names a configured zone
whose fetch succeeded and whose own latest entry is a non-delete-marker
version; its reported row carries that entry as a `Version` brief with a
present truncated timestamp.  Failed zones and delete-marker zones are never
recommended. -/
theorem C10_recommended_sound (zones : List (String × String))
    (fetch : String → Except String ListVersionsResp)
    (key currentZone bucket dflt : String) (r : Report) (zn : String)
    (hnd : (zones.map Prod.fst).Nodup)
    (hr : consistency_check zones fetch key currentZone bucket dflt =
      Except.ok r)
    (hrec : r.recommended_download_zone = some zn) :
    ∃ zu resp e b,
      (zn, zu) ∈ zones ∧ fetch zu = Except.ok resp ∧
      latest_entry_for_key (mergedEntries resp key) = some e ∧
      e.isDeleteMarker = false ∧
      entry_to_brief (some e) = some b ∧
      b.type = "Version" ∧ b.last_modified = some e.lastModified.sec ∧
      ∃ st, PZEntry.mk zn st (some b) none ∈ r.per_zone := by
  have hrb := check_ok_inv hr
  subst hrb
  have hrec2 : (find_best_version (latestCandidates zones fetch key)
      true).map (fun p => p.1) = some zn := hrec
  obtain ⟨g, hg, hg1⟩ := Option.map_eq_some'.mp hrec2
  have hmem := fbv_mem hg
  have hmf := List.mem_filter.mp hmem
  have hdm : g.2.isDeleteMarker = false := by simpa using hmf.2
  obtain ⟨w, hw, hwg⟩ := List.mem_filterMap.mp hmf.1
  obtain ⟨e, he, heg⟩ := Option.map_eq_some'.mp hwg
  cases hfw : fetch w.2 with
  | error m =>
    unfold zoneLatestFor at he
    rw [hfw] at he
    exact absurd he (by simp)
  | ok resp =>
    have hle : latest_entry_for_key (mergedEntries resp key) = some e := by
      unfold zoneLatestFor at he
      rw [hfw] at he
      exact he
    have hw1 : w.1 = zn := by rw [← hg1, ← heg]
    have hdm2 : e.isDeleteMarker = false := by
      rw [← heg] at hdm
      exact hdm
    obtain ⟨b, hbType, hbLm, hbEq⟩ : ∃ b, b.type = "Version" ∧
        b.last_modified = some e.lastModified.sec ∧
        entry_to_brief (some e) = some b := by
      refine ⟨⟨"Version", e.versionId,
        (match e.etag with
         | none => none
         | some s => if s = "" then none else some (stripQuotes s)),
        some e.lastModified.sec, e.size, e.isLatest⟩, rfl, rfl, ?_⟩
      unfold entry_to_brief
      simp [hdm2, format_datetime_iso]
    refine ⟨w.2, resp, e, b, ?_, hfw, hle, hdm2, hbEq, hbType, hbLm, ?_⟩
    · rw [← hw1]
      exact hw
    · have hmemrow : zoneRow fetch key (globalIsDelete zones fetch key)
          (comparatorTs zones fetch key) w ∈ perZoneList zones fetch key := by
        rw [perZoneList_eq fetch key hnd]
        exact List.mem_map_of_mem _ hw
      rw [zoneRow_ok hfw, hle, hbEq] at hmemrow
      refine ⟨classifyState ⟨w.1, some b, none⟩
        (globalIsDelete zones fetch key) (comparatorTs zones fetch key), ?_⟩
      rw [← hw1]
      exact hmemrow

/-- Claim C10 witness: in the three-zone scenario the recommended zone is the
live zone with a `Version` latest entry. -/
theorem C10_witness :
    ∃ zu resp e b,
      ("z1", zu) ∈ zonesW ∧ fetchW zu = Except.ok resp ∧
      latest_entry_for_key (mergedEntries resp "k") = some e ∧
      e.isDeleteMarker = false ∧
      entry_to_brief (some e) = some b ∧
      b.type = "Version" ∧ b.last_modified = some e.lastModified.sec ∧
      ∃ st, PZEntry.mk "z1" st (some b) none ∈
        (buildReport zonesW fetchW "k" "z1").per_zone :=
  C10_recommended_sound zonesW fetchW "k" "z1" "b" ""
    (buildReport zonesW fetchW "k" "z1") "z1" (by decide) rfl (by decide)
